import Mathlib

/-!
Shallow embedding of the `next-gen` service-generation pipeline
(`lib` package: record extractor, convention parser, generation
orchestrator) together with theorems settling the specification
claims about it.

Go AST values are embedded as inductive data; Go's partial functions
(which may panic on nil dereference or failed type assertion) are
embedded with `Option` (`none` = runtime panic), and fallible
functions with `Except`.
-/

namespace NextGen

/-- Embedding of the `go/ast` type-expression nodes that the pipeline
inspects.  `ident` is `*ast.Ident` (field `Name`), `selector` is
`*ast.SelectorExpr` (`X`, `Sel` — `Sel` is always an identifier),
`star` is `*ast.StarExpr` (`Star` position, `X`), `sliceArray` /
`array` are `*ast.ArrayType` (`Lbrack` position, `Elt`, with `Len`
respectively nil or present).  `other` stands for any remaining node
kind, carrying the string that Go's default `fmt` formatting would
print for it. -/
inductive GoExpr where
  | ident (name : String)
  | selector (x : GoExpr) (sel : String)
  | star (pos : Nat) (x : GoExpr)
  | sliceArray (pos : Nat) (elt : GoExpr)
  | array (pos : Nat) (len : GoExpr) (elt : GoExpr)
  | other (rendered : String)
deriving Repr, DecidableEq

/-- Embedding of `fmt.Sprint` applied to an `ast.Expr` value, as used
by `extractStructs` (`Type: fmt.Sprint(field.Type)`).  `*ast.Ident`
implements `String()` returning its `Name`, so it prints as the bare
name; every other node is a pointer to a struct without a `String`
method, which `fmt` prints as `&{field₁ field₂ …}` with each field
printed recursively (positions print as decimal integers, a nil
expression prints as `<nil>`). -/
def fmtSprint : GoExpr → String
  | .ident n => n
  | .selector x sel => "&\x7b" ++ fmtSprint x ++ " " ++ sel ++ "\x7d"
  | .star pos x => "&\x7b" ++ toString pos ++ " " ++ fmtSprint x ++ "\x7d"
  | .sliceArray pos elt =>
      "&\x7b" ++ toString pos ++ " <nil> " ++ fmtSprint elt ++ "\x7d"
  | .array pos len elt =>
      "&\x7b" ++ toString pos ++ " " ++ fmtSprint len ++ " "
        ++ fmtSprint elt ++ "\x7d"
  | .other r => r

/-- The literal source-text form of a type expression (what the spec
calls "the literal textual form of the field's type expression").
This definition follows the spec's words and is compared against the
extractor's actual recording. -/
def sourceText : GoExpr → String
  | .ident n => n
  | .selector x sel => sourceText x ++ "." ++ sel
  | .star _ x => "*" ++ sourceText x
  | .sliceArray _ elt => "[]" ++ sourceText elt
  | .array _ l elt => "[" ++ sourceText l ++ "]" ++ sourceText elt
  | .other r => r

/-- `lib.Field`: one recorded record member. -/
structure Field where
  name : String
  type : String
deriving Repr, DecidableEq

/-- One field declaration of a struct type (`*ast.Field`): a list of
declared names (empty for an embedded/anonymous field) and the shared
type expression. -/
structure StructField where
  names : List String
  ftype : GoExpr
deriving Repr, DecidableEq

/-- One type specification inside a `type` declaration
(`*ast.TypeSpec`): the declared name, and its field list when the
underlying type is a struct type (`none` for non-struct type specs,
which `extractStructs` ignores). -/
structure TypeDecl where
  name : String
  structFields : Option (List StructField)
deriving Repr, DecidableEq

/-- Embedding of `*ast.FuncDecl` as far as the pipeline inspects it:
name, whether a receiver is present, the types of the declared
parameter fields in order, and the types of the declared result
fields (`none` when the declaration has no result list at all,
mirroring a nil `fn.Type.Results`). -/
structure FuncDecl where
  name : String
  hasRecv : Bool
  params : List GoExpr
  results : Option (List GoExpr)
deriving Repr, DecidableEq

/-- A parsed Go source file as far as the pipeline inspects it. -/
structure GoFileAst where
  imports : List String
  funcs : List FuncDecl
  types : List TypeDecl
deriving Repr, DecidableEq

/-- A file met during a directory walk: its (base) name and its parse
result (`none` when `parser.ParseFile` fails). -/
structure SourceFile where
  name : String
  ast : Option GoFileAst
deriving Repr, DecidableEq

/-! ### Go string primitives

The Go standard-library string operations the pipeline uses, embedded
over the character list of a `String` (so that they compute by
definitional reduction). -/

/-- `strings.HasSuffix` (also the semantics of `strings.HasSuffix`-style
file-name checks). -/
def strEndsWith (s t : String) : Bool :=
  t.data.isSuffixOf s.data

/-- `strings.HasPrefix`. -/
def strStartsWith (s t : String) : Bool :=
  t.data.isPrefixOf s.data

/-- `strings.ToLower` (character-wise lowering). -/
def goToLower (s : String) : String :=
  String.mk (s.data.map Char.toLower)

/-- Splitting a character list at every character satisfying `p`
(empty pieces preserved), the semantics of `strings.Split` /
field splitting. -/
def splitOnPred (p : Char → Bool) : List Char → List (List Char)
  | [] => [[]]
  | c :: rest =>
    let r := splitOnPred p rest
    if p c then [] :: r
    else
      match r with
      | w :: ws => (c :: w) :: ws
      | [] => [[c]]

/-! ### The record extractor (`extractStructs`) -/

/-- The `map[string][]Field` built by the extractor, embedded as an
association list where the first entry for a key is its current
binding. -/
abbrev SchemaMap := List (String × List Field)

/-- Go map read without the comma-ok form: `m[k]` present case. -/
def mapFind (m : SchemaMap) (k : String) : Option (List Field) :=
  (m.find? (fun p => p.1 == k)).map Prod.snd

/-- Go map read `m[k]`: the binding when present, the zero value
(`nil`, i.e. the empty field list) otherwise. -/
def mapLookup (m : SchemaMap) (k : String) : List Field :=
  (mapFind m k).getD []

/-- Go map write `m[k] = v` (overwrites any previous binding). -/
def mapInsert (m : SchemaMap) (k : String) (v : List Field) : SchemaMap :=
  (k, v) :: m.filter (fun p => p.1 ≠ k)

/-- The field list recorded for one struct type: for each field
declaration with at least one name, the first name together with
`fmt.Sprint` of the type expression; declarations with no names
(embedded fields) are skipped. -/
def extractFields (fs : List StructField) : List Field :=
  fs.filterMap (fun f =>
    match f.names with
    | n :: _ => some ⟨n, fmtSprint f.ftype⟩
    | [] => none)

/-- Processing of one parsed file's type declarations by
`extractStructs`: each struct type spec stores its extracted field
list under the declared type name (overwriting). -/
def extractFile (m : SchemaMap) (tds : List TypeDecl) : SchemaMap :=
  tds.foldl
    (fun m td =>
      match td.structFields with
      | some fs => mapInsert m td.name (extractFields fs)
      | none => m)
    m

/-- The walk callback of `extractStructs` for one directory entry:
files not ending in `.go` and files that fail to parse are skipped
silently. -/
def extractStep (m : SchemaMap) (f : SourceFile) : SchemaMap :=
  if strEndsWith f.name ".go" then
    match f.ast with
    | some ast => extractFile m ast.types
    | none => m
  else m

/-- `extractStructs`: walk the given files (in walk order),
accumulating struct declarations into the schema map. -/
def extractStructs (files : List SourceFile) : SchemaMap :=
  files.foldl extractStep []

/-! ### The convention parser (`validateFunctionParams`, `parseDir`) -/

/-- The string `contextType` returned by `validateFunctionParams`
("Service" / "Workflow"). -/
inductive CtxKind where
  | service
  | workflow
deriving Repr, DecidableEq, BEq

/-- Structured embedding of the `fmt.Errorf` errors raised by the
convention parser; each carries the data interpolated into the
message (the offending function's name, or the unparsable file). -/
inductive ParseErr where
  | notEnoughParams (fnName : String)
  | badFirstParam (fnName : String)
  | fileParseError (fileName : String)
deriving Repr, DecidableEq

/-- `validateFunctionParams`.  Result `none` embeds a runtime panic:
when the first parameter is a `SelectorExpr` whose `X` is not an
identifier, the code runs the unchecked type assertion
`starExpr.X.(*ast.Ident)` and panics. -/
def validateFunctionParams (fn : FuncDecl) : Option (Except ParseErr CtxKind) :=
  match fn.params with
  | p0 :: _ :: _ =>
    match p0 with
    | .selector (.ident x) sel =>
      if x = "polycode" then
        if sel = "ServiceContext" then some (.ok .service)
        else if sel = "WorkflowContext" then some (.ok .workflow)
        else some (.error (.badFirstParam fn.name))
      else some (.error (.badFirstParam fn.name))
    | .selector _ _ => none
    | _ => some (.error (.badFirstParam fn.name))
  | _ => some (.error (.notEnoughParams fn.name))

/-- The second-parameter / first-result resolution of `parseDir`:
`*pkg.T` gives `(isPointer true, "pkg.T")`; a pointer to anything
other than a selector keeps the empty type name; a bare `pkg.T` gives
`(false, "pkg.T")`; any other shape keeps `(false, "")`.  `none`
embeds the panic of the unchecked assertion
`selectorExpr.X.(*ast.Ident)` when the selector's `X` is not an
identifier. -/
def resolveTypeRef (e : GoExpr) : Option (Bool × String) :=
  match e with
  | .star _ x =>
    match x with
    | .selector sx sel =>
      match sx with
      | .ident n => some (true, n ++ "." ++ sel)
      | _ => none
    | _ => some (true, "")
  | .selector sx sel =>
    match sx with
    | .ident n => some (false, n ++ "." ++ sel)
    | _ => none
  | _ => some (false, "")

/-- `lib.MethodInfo`. -/
structure MethodInfo where
  originalName : String
  name : String
  inputType : String
  isInputPointer : Bool
  inputSchema : List Field
  outputType : String
  isOutputPointer : Bool
  outputSchema : List Field
  isWorkflow : Bool
  isService : Bool
deriving Repr, DecidableEq

/-- `rune(name[0])` is a lower-case letter (the unexported-function
skip of `parseDir`). -/
def startsLower (s : String) : Bool :=
  match s.data with
  | c :: _ => c.isLower
  | [] => false

/-- Processing of a single top-level declaration by `parseDir`'s
inner loop.  `some (.ok none)` means the declaration contributes no
method (receiver present, unexported name, or silently-dropped shape
mismatch); `some (.error e)` aborts the walk; `none` embeds a runtime
panic (unchecked type assertion, nil `Results` dereference, or
out-of-range `Results.List[0]`). -/
def processFunc (structDefs : SchemaMap) (fn : FuncDecl) :
    Option (Except ParseErr (Option MethodInfo)) :=
  if fn.hasRecv then some (.ok none)
  else if startsLower fn.name then some (.ok none)
  else
    match validateFunctionParams fn with
    | none => none
    | some (.error e) => some (.error e)
    | some (.ok ctx) =>
      match fn.params with
      | _ :: p1 :: _ =>
        match resolveTypeRef p1 with
        | none => none
        | some (isInPtr, inTy) =>
          match fn.results with
          | none => none
          | some [] => none
          | some (r0 :: _) =>
            match resolveTypeRef r0 with
            | none => none
            | some (isOutPtr, outTy) =>
              if inTy ≠ "" ∧ outTy ≠ "" then
                some (.ok (some
                  { originalName := fn.name
                    name := goToLower fn.name
                    inputType := inTy
                    isInputPointer := isInPtr
                    inputSchema := mapLookup structDefs inTy
                    outputType := outTy
                    isOutputPointer := isOutPtr
                    outputSchema := mapLookup structDefs outTy
                    isWorkflow := ctx == CtxKind.workflow
                    isService := ctx == CtxKind.service }))
              else some (.ok none)
      -- unreachable: `validateFunctionParams` succeeded, so at least
      -- two parameters are present
      | _ => some (.ok none)

/-- The declaration loop of `parseDir` over one file's declarations,
threading the accumulated method list and aborting on the first error
or panic. -/
def processFuncs (structDefs : SchemaMap) (fns : List FuncDecl)
    (acc : List MethodInfo) : Option (Except ParseErr (List MethodInfo)) :=
  match fns with
  | [] => some (.ok acc)
  | fn :: rest =>
    match processFunc structDefs fn with
    | none => none
    | some (.error e) => some (.error e)
    | some (.ok none) => processFuncs structDefs rest acc
    | some (.ok (some m)) => processFuncs structDefs rest (acc ++ [m])

/-- `unique`: deduplicate import paths with a seen-set (the Go map),
appending each unseen path to the result. -/
def unique (strs : List String) : List String :=
  (strs.foldl
    (fun (acc : List String × List String) s =>
      if s ∈ acc.1 then acc else (s :: acc.1, acc.2 ++ [s]))
    ([], [])).2

/-- The walk loop of `parseDir`: files named `*.go` but not
`*_test.go` are parsed (a parse failure aborts the walk with an
error), their imports appended, and their declarations processed. -/
def parseDirAux (structDefs : SchemaMap) (files : List SourceFile)
    (methods : List MethodInfo) (imports : List String) :
    Option (Except ParseErr (List MethodInfo × List String)) :=
  match files with
  | [] => some (.ok (methods, imports))
  | f :: rest =>
    if strEndsWith f.name ".go" ∧ ¬ strEndsWith f.name "_test.go" then
      match f.ast with
      | none => some (.error (.fileParseError f.name))
      | some ast =>
        match processFuncs structDefs ast.funcs methods with
        | none => none
        | some (.error e) => some (.error e)
        | some (.ok methods') =>
          parseDirAux structDefs rest methods' (imports ++ ast.imports)
    else parseDirAux structDefs rest methods imports

/-- `parseDir`: returns the recognized methods and the deduplicated
list of imports, or an error, or a panic (`none`). -/
def parseDir (structDefs : SchemaMap) (files : List SourceFile) :
    Option (Except ParseErr (List MethodInfo × List String)) :=
  match parseDirAux structDefs files [] [] with
  | none => none
  | some (.error e) => some (.error e)
  | some (.ok (methods, imports)) => some (.ok (methods, unique imports))

/-! ### The generation engine -/

/-- `lib.ServiceInfo`. -/
structure ServiceInfo where
  moduleName : String
  serviceName : String
  serviceStructName : String
  methods : List MethodInfo
  isProduction : Bool
  imports : List String
deriving Repr, DecidableEq

/-- `toPascalCase`: split on hyphens, capitalize each word's first
character, concatenate. -/
def toPascalCase (input : String) : String :=
  String.join ((splitOnPred (fun c => c = '-') input.data).map (fun w =>
    match w with
    | c :: rest => String.mk (c.toUpper :: rest)
    | [] => ""))

/-- One `case` arm of the generated `GetInputType` switch. -/
def renderInputCase (m : MethodInfo) : String :=
  "case \"" ++ m.name ++ "\":\n\t\t\x7b\n\t\t\treturn &" ++ m.inputType
    ++ "\x7b\x7d, nil\n\t\t\x7d\n\t"

/-- One `case` arm of a generated executor switch (shared shape of
`ExecuteService` and `ExecuteWorkflow`): dispatch to the original
function, passing the input as the received pointer or dereferenced
to a value depending on `isInputPointer`. -/
def renderExecCase (m : MethodInfo) : String :=
  "case \"" ++ m.name ++ "\":\n\t\t\x7b\n\t\t\t// Pass the input correctly as a pointer or value based on the method signature\n\t\t\t"
    ++ (if m.isInputPointer then
          "\n\t\t\treturn service." ++ m.originalName ++ "(ctx, input.(*"
            ++ m.inputType ++ "))\n\t\t\t"
        else
          "\n\t\t\treturn service." ++ m.originalName ++ "(ctx, *(input.(*"
            ++ m.inputType ++ ")))\n\t\t\t")
    ++ "\n\t\t\x7d\n\t\t"

/-- The `@definition` introspection block emitted only in production
mode: the ordered list of original method names. -/
def renderDefinitionBlock (methods : List MethodInfo) : String :=
  "\n\t// Handle @definition case\n\tif method == \"@definition\" \x7b\n\t\treturn []string\x7b\n\t\t\t"
    ++ String.join (methods.map (fun m => "\"" ++ m.originalName ++ "\",\n\t\t\t"))
    ++ "\n\t\t\x7d, nil\n\t\x7d\n\t"

/-- `generateServiceCode`: execution of the fixed `wrapperTemplate`
against a `ServiceInfo`.  The emitted sections, in order: package
header and imports, `init` registration, the service struct,
`GetName`, `GetInputType` (all methods), `ExecuteService` (with the
production-only `@definition` block, then the service-classified
methods), `ExecuteWorkflow` (workflow-classified methods), and the
`IsWorkflow` predicate.  Method cases appear in method-list order. -/
def generateServiceCode (si : ServiceInfo) : String :=
  "package _polycode\n\nimport (\n\t\"errors\"\n\t\"github.com/cloudimpl/next-coder-sdk/polycode\"\n\t\"strings\"\n    service \""
    ++ si.moduleName ++ "/services/" ++ si.serviceName ++ "\"\n\t"
    ++ String.join (si.imports.map (fun i => "\"" ++ i ++ "\"\n\t"))
    ++ "\n)\n\nfunc init() \x7b\n\tpolycode.RegisterService(&"
    ++ si.serviceStructName ++ "\x7b\x7d)\n\x7d\n\ntype "
    ++ si.serviceStructName ++ " struct \x7b\n\x7d\n\nfunc (t *"
    ++ si.serviceStructName ++ ") GetName() string \x7b\n\treturn \""
    ++ si.serviceName ++ "\"\n\x7d\n\nfunc (t *"
    ++ si.serviceStructName
    ++ ") GetInputType(method string) (any, error) \x7b\n\tmethod = strings.ToLower(method)\n\tswitch method \x7b\n\t"
    ++ String.join (si.methods.map renderInputCase)
    ++ "default:\n\t\t\x7b\n\t\t\treturn nil, errors.New(\"method not found\")\n\t\t\x7d\n\t\x7d\n\x7d\n\n"
    ++ "// ExecuteService handles methods with polycode.ServiceContext as the first parameter\nfunc (t *"
    ++ si.serviceStructName
    ++ ") ExecuteService(ctx polycode.ServiceContext, method string, input any) (any, error) \x7b\n\tmethod = strings.ToLower(method)\n\n\t"
    ++ (if si.isProduction then renderDefinitionBlock si.methods else "")
    ++ "\n\n\tswitch method \x7b\n\t"
    ++ String.join ((si.methods.filter (fun m => m.isService)).map renderExecCase)
    ++ "default:\n\t\t\x7b\n\t\t\treturn nil, errors.New(\"method not found\")\n\t\t\x7d\n\t\x7d\n\x7d\n\n"
    ++ "// ExecuteWorkflow handles methods with polycode.WorkflowContext as the first parameter\nfunc (t *"
    ++ si.serviceStructName
    ++ ") ExecuteWorkflow(ctx polycode.WorkflowContext, method string, input any) (any, error) \x7b\n\tmethod = strings.ToLower(method)\n\n\tswitch method \x7b\n\t"
    ++ String.join ((si.methods.filter (fun m => m.isWorkflow)).map renderExecCase)
    ++ "default:\n\t\t\x7b\n\t\t\treturn nil, errors.New(\"method not found\")\n\t\t\x7d\n\t\x7d\n\x7d\n\n"
    ++ "// IsWorkflow checks whether the method is a workflow (i.e., its first parameter is polycode.WorkflowContext)\nfunc (t *"
    ++ si.serviceStructName
    ++ ") IsWorkflow(method string)bool \x7b\n\tmethod = strings.ToLower(method)\n\tswitch method \x7b\n\t"
    ++ String.join ((si.methods.filter (fun m => m.isWorkflow)).map (fun m =>
        "case \"" ++ m.name ++ "\":\n\t\t\x7b\n\t\t\treturn true\n\t\t\x7d\n\t\t"))
    ++ "\n\t\x7d\n\treturn false\n\x7d\n"

/-- Rendering of one `Field` in the definition document. -/
def yamlField (indent : String) (f : Field) : String :=
  indent ++ "- name: " ++ f.name ++ "\n" ++ indent ++ "  type: " ++ f.type ++ "\n"

/-- Rendering of a schema (possibly empty) in the definition document. -/
def yamlSchema (key indent : String) (fs : List Field) : String :=
  match fs with
  | [] => indent ++ key ++ ": []\n"
  | _ => indent ++ key ++ ":\n" ++ String.join (fs.map (yamlField (indent ++ "    ")))

/-- Rendering of one `MethodInfo` in the definition document, fields
in struct order with their yaml tags. -/
def yamlMethod (m : MethodInfo) : String :=
  "    - originalName: " ++ m.originalName ++ "\n"
    ++ "      name: " ++ m.name ++ "\n"
    ++ "      inputType: " ++ m.inputType ++ "\n"
    ++ "      isInputPointer: " ++ (if m.isInputPointer then "true" else "false") ++ "\n"
    ++ yamlSchema "inputSchema" "      " m.inputSchema
    ++ "      outputType: " ++ m.outputType ++ "\n"
    ++ "      isOutputPointer: " ++ (if m.isOutputPointer then "true" else "false") ++ "\n"
    ++ yamlSchema "outputSchema" "      " m.outputSchema
    ++ "      isWorkflow: " ++ (if m.isWorkflow then "true" else "false") ++ "\n"
    ++ "      isService: " ++ (if m.isService then "true" else "false") ++ "\n"

/-- Modelled from the spec: the external YAML serialization library
(`yaml.Marshal`, not part of this repository) rendering the full
`ServiceInfo` — "a structured record of the full ServiceModel
(module name, service name, derived struct name, and the method list
with all schema fields)" — as a deterministic function of the model,
fields in struct declaration order under their yaml tags. -/
def yamlMarshal (si : ServiceInfo) : String :=
  "moduleName: " ++ si.moduleName ++ "\n"
    ++ "serviceName: " ++ si.serviceName ++ "\n"
    ++ "serviceStructName: " ++ si.serviceStructName ++ "\n"
    ++ (match si.methods with
        | [] => "methods: []\n"
        | _ => "methods:\n" ++ String.join (si.methods.map yamlMethod))
    ++ "isproduction: " ++ (if si.isProduction then "true" else "false") ++ "\n"
    ++ (match si.imports with
        | [] => "imports: []\n"
        | _ => "imports:\n" ++ String.join (si.imports.map (fun i => "    - " ++ i ++ "\n")))

/-! ### The service orchestrator -/

/-- How a run (or one service's processing) ends: normally, with a
propagated error, with a missing/malformed module manifest, or with a
runtime panic. -/
inductive RunExit where
  | ok
  | fail (e : ParseErr)
  | moduleNotFound
  | panic
deriving Repr, DecidableEq

/-- One file written by the run (path relative to the project root,
and its full byte content). -/
structure FileWrite where
  path : String
  content : String
deriving Repr, DecidableEq

/-- `strings.Fields`: split on whitespace, dropping empty pieces. -/
def goFields (s : String) : List String :=
  ((splitOnPred (fun c => c = ' ' ∨ c = '\t' ∨ c = '\n' ∨ c = '\r') s.data).map
    String.mk).filter (· ≠ "")

/-- `getModuleName` over the manifest's lines: the first line that
starts with `module` and has a second whitespace-separated field
yields that field; otherwise the module name is not found. -/
def getModuleName (lines : List String) : Option String :=
  lines.findSome? (fun line =>
    if strStartsWith line "module" then
      match goFields line with
      | _ :: m :: _ => some m
      | _ => none
    else none)

/-- `generateService`: parse the service directory; a parse error or
panic propagates with nothing written; a `nil` method list is a
benign no-op; otherwise render and write the adapter artifact and the
definition artifact. -/
def generateService (moduleName serviceName : String)
    (files : List SourceFile) (structDefs : SchemaMap) (prod : Bool) :
    List FileWrite × RunExit :=
  match parseDir structDefs files with
  | none => ([], .panic)
  | some (.error e) => ([], .fail e)
  | some (.ok (methods, imports)) =>
    if methods = [] then ([], .ok)
    else
      let si : ServiceInfo :=
        { moduleName := moduleName
          serviceName := serviceName
          serviceStructName := toPascalCase serviceName
          methods := methods
          isProduction := prod
          imports := imports }
      ([⟨".polycode/" ++ serviceName ++ ".go", generateServiceCode si⟩,
        ⟨".polycode/definition/" ++ serviceName ++ ".yml", yamlMarshal si⟩],
       .ok)

/-- The per-service loop of `GenerateServices`: services are processed
in directory order; the first failing service aborts the run, but the
writes of earlier services remain. -/
def runServices (moduleName : String) (structDefs : SchemaMap) (prod : Bool) :
    List (String × List SourceFile) → List FileWrite × RunExit
  | [] => ([], .ok)
  | (name, files) :: rest =>
    match generateService moduleName name files structDefs prod with
    | (ws, .ok) =>
      let r := runServices moduleName structDefs prod rest
      (ws ++ r.1, r.2)
    | (ws, e) => (ws, e)

/-- `GenerateServices`: resolve the module name from the manifest
(failure aborts before anything is written), build the `RecordSchema`
once over the whole walked tree, then process each service
directory.  (The post-processing `goimports` invocation is an
external collaborator outside this model.) -/
def GenerateServicesRun (goModLines : List String)
    (walkedFiles : List SourceFile)
    (services : List (String × List SourceFile)) (prod : Bool) :
    List FileWrite × RunExit :=
  match getModuleName goModLines with
  | none => ([], .moduleNotFound)
  | some moduleName =>
    runServices moduleName (extractStructs walkedFiles) prod services

/-! ### The artifacts of a previous run, as seen by the next run's walk -/

/-- Go identifier syntax (first character a letter or underscore, the
rest letters, digits or underscores). -/
def isGoIdent (s : String) : Bool :=
  match s.data with
  | [] => false
  | c :: rest =>
    (c.isAlpha || c = '_') && rest.all (fun d => d.isAlphanum || d = '_')

/-- What a later run's record extractor sees when it parses a
previously generated adapter file: the adapter declares exactly one
type, the empty service struct `type <structName> struct {}` (the
imports and the receiver methods it declares are irrelevant to the
extractor, which only reads struct type declarations).  When the derived struct
name is not a Go identifier the generated file does not parse as Go,
and an unparsable file is skipped by the extractor. -/
def adapterAst (structName : String) : Option GoFileAst :=
  if isGoIdent structName then some ⟨[], [], [⟨structName, some []⟩]⟩
  else none

/-- The adapter artifact of a service, as a file met by the next
run's walk of the project root. -/
def adapterFileOf (serviceName : String) : SourceFile :=
  ⟨serviceName ++ ".go", adapterAst (toPascalCase serviceName)⟩

/-- The definition artifact of a service, as a file met by the next
run's walk: a `.yml` file, which is not a Go file. -/
def definitionFileOf (serviceName : String) : SourceFile :=
  ⟨serviceName ++ ".yml", none⟩

/-- The file list walked by a second run over an unchanged source
tree: the `.polycode` output directory (which sorts before the source
directories in the walk) now holds the artifacts of every service,
followed by the unchanged source files. -/
def secondRunWalk (services : List (String × List SourceFile))
    (walked : List SourceFile) : List SourceFile :=
  (services.map (fun s => adapterFileOf s.1))
    ++ (services.map (fun s => definitionFileOf s.1)) ++ walked

/-! ### Spec-side definitions and concrete demonstration inputs -/

/-- The spec's description of import deduplication, stated
positionally: keep each path's first occurrence, in order of first
appearance, dropping every later duplicate. -/
def keepFirst : List String → List String
  | [] => []
  | a :: l => a :: keepFirst (l.filter (fun b => b ≠ a))
termination_by l => l.length
decreasing_by
  simp only [List.length_cons]
  exact Nat.lt_succ_of_le (List.length_filter_le _ _)

/-- A schema map binding the qualified name `pkg.Req` (and nothing
else). -/
def demoSchema : SchemaMap := [("pkg.Req", [⟨"A", "int"⟩])]

/-- A convention function
`func DoThing(ctx polycode.ServiceContext, req *pkg.Req) pkg.Resp`. -/
def demoFunc : FuncDecl :=
  ⟨"DoThing", false,
   [.selector (.ident "polycode") "ServiceContext",
    .star 5 (.selector (.ident "pkg") "Req")],
   some [.selector (.ident "pkg") "Resp"]⟩

/-- A service source file declaring only `demoFunc`. -/
def demoFile : SourceFile := ⟨"svc.go", some ⟨[], [demoFunc], []⟩⟩

/-- The method record the parser produces for `demoFunc` against
`demoSchema`. -/
def demoMethod : MethodInfo :=
  { originalName := "DoThing", name := "dothing",
    inputType := "pkg.Req", isInputPointer := true,
    inputSchema := [⟨"A", "int"⟩],
    outputType := "pkg.Resp", isOutputPointer := false,
    outputSchema := [],
    isWorkflow := false, isService := true }

/-- `func Foo(ctx polycode.ServiceContext, n int)` — a valid context
first parameter but no declared return types at all. -/
def noResultsFunc : FuncDecl :=
  ⟨"Foo", false,
   [.selector (.ident "polycode") "ServiceContext", .ident "int"], none⟩

/-- `func Foo(ctx polycode.ServiceContext, n int) int` — same
function but with a (shape-mismatched) return type declared. -/
def mismatchedFunc : FuncDecl :=
  ⟨"Foo", false,
   [.selector (.ident "polycode") "ServiceContext", .ident "int"],
   some [.ident "int"]⟩

/-- A service file declaring only `noResultsFunc`. -/
def noResultsFile : SourceFile := ⟨"svc.go", some ⟨[], [noResultsFunc], []⟩⟩

/-- Which `GoExpr` values the external Go front end (`go/parser`) can
actually deliver as a parameter or result type of an error-free
parse: in Go's type grammar a qualified type name is exactly
`PackageName "." identifier` (one level), so a selector node in type
position always has a plain identifier as its `X`; a doubly-qualified
`a.b.C` is a syntax error that fails the whole file's parse before
any declaration is seen.  Composite types are realizable when their
element types are. -/
def parsedType : GoExpr → Bool
  | .ident _ => true
  | .selector (.ident _) _ => true
  | .selector _ _ => false
  | .star _ x => parsedType x
  | .sliceArray _ elt => parsedType elt
  | .array _ _ elt => parsedType elt
  | .other _ => true

/-- `func Bar(ctx *polycode.ServiceContext, n int) int` — a pointer
first parameter. -/
def pointerCtxFunc : FuncDecl :=
  ⟨"Bar", false,
   [.star 1 (.selector (.ident "polycode") "ServiceContext"), .ident "int"],
   some [.ident "int"]⟩

/-- `func Baz(ctx polycode.ServiceContext)` — fewer than two
parameters. -/
def tooFewParamsFunc : FuncDecl :=
  ⟨"Baz", false, [.selector (.ident "polycode") "ServiceContext"], none⟩

/-- The type expression of a field declared as `X pkg.T`. -/
def c2FieldType : GoExpr := .selector (.ident "pkg") "T"

/-- A Go file with no top-level function declarations at all. -/
def emptyServiceFile : SourceFile := ⟨"empty.go", some ⟨[], [], []⟩⟩

/-! ### General lemmas -/

theorem dot_ne_empty (a b : String) : a ++ "." ++ b ≠ "" := by
  intro h
  have hl := congrArg String.length h
  simp only [String.length_append] at hl
  rw [show String.length "." = 1 from rfl, show String.length "" = 0 from rfl] at hl
  omega

theorem dot_mem_data (a b : String) : '.' ∈ (a ++ "." ++ b).data := by
  have h : (a ++ "." ++ b).data = a.data ++ ['.'] ++ b.data := by
    rw [String.data_append, String.data_append]
  rw [h]
  simp

/-! ### Claim C10 -/

/-- C10: for a record field declaration listing several names
(`A, B int`), the extractor records only the first listed name as a
`Field`; the remaining names of that declaration are dropped (the
result does not depend on `rest`). -/
theorem C10_first_name_only (n : String) (rest : List String) (ty : GoExpr)
    (fs : List StructField) :
    extractFields (⟨n :: rest, ty⟩ :: fs) = ⟨n, fmtSprint ty⟩ :: extractFields fs := rfl

/-! ### Claim C2 -/

/-- C2 (counterexample): a field declared as `X pkg.T` is recorded
with type string `"&{pkg T}"` (Go's default struct formatting of the
AST node), not the literal source text `"pkg.T"` — refuting the claim
that the recorded type string equals the literal textual form of the
field's type expression. -/
theorem C2_counterexample :
    extractFields [⟨["X"], c2FieldType⟩] = [⟨"X", "&\x7bpkg T\x7d"⟩]
      ∧ sourceText c2FieldType = "pkg.T"
      ∧ extractFields [⟨["X"], c2FieldType⟩] ≠ [⟨"X", sourceText c2FieldType⟩] := by
  refine ⟨rfl, rfl, by decide⟩

/-- C2 (amended): every recorded field's type string is `fmt.Sprint`
of the field's type expression, and this coincides with the literal
source text exactly in the bare-identifier case (`X int` → `"int"`);
qualified and composite type expressions are recorded in Go's default
value-dump notation instead of their source text. -/
theorem C2_amended_fmt_of_type :
    (∀ (fs : List StructField) (fld : Field), fld ∈ extractFields fs →
       ∃ sf, sf ∈ fs ∧ fld.type = fmtSprint sf.ftype)
      ∧ (∀ n, fmtSprint (GoExpr.ident n) = sourceText (GoExpr.ident n)) := by
  constructor
  · intro fs fld hmem
    obtain ⟨sf, hsf, hg⟩ := List.mem_filterMap.mp hmem
    refine ⟨sf, hsf, ?_⟩
    cases hn : sf.names with
    | nil =>
      simp only [hn] at hg
      exact Option.noConfusion hg
    | cons n ns =>
      simp only [hn, Option.some.injEq] at hg
      subst hg
      rfl
  · intro n
    rfl

/-- C2 (amended, witness): applying the amended claim at the concrete
field `X pkg.T`. -/
theorem C2_amended_witness :
    ∃ sf, sf ∈ [(⟨["X"], c2FieldType⟩ : StructField)]
      ∧ (Field.mk "X" "&\x7bpkg T\x7d").type = fmtSprint sf.ftype :=
  C2_amended_fmt_of_type.1 [⟨["X"], c2FieldType⟩] ⟨"X", "&\x7bpkg T\x7d"⟩ (by decide)

/-! ### Claim C4 -/

/-- C4: the claim that a shape-mismatched function — including one
with no declared return types — is silently excluded without a crash
fails on the code: for `func Foo(ctx polycode.ServiceContext, n int)`
(no results), `parseDir` dereferences the nil `fn.Type.Results` and
panics (`none`), whereas the same function with a mismatched declared
return type really is silently dropped. -/
theorem C4_no_results_panics :
    processFunc [] noResultsFunc = none
      ∧ parseDir [] [noResultsFile] = none
      ∧ processFunc [] mismatchedFunc = some (.ok none) :=
  ⟨rfl, rfl, rfl⟩

/-! ### Claim C5 -/

/-- On parser-deliverable inputs, an unrecognized first-parameter
shape (or a too-short parameter list) always lands in one of the two
`fmt.Errorf` returns of `validateFunctionParams`, each carrying the
offending function's name; the panic-modelling `none` branch needs a
selector whose qualifier is not an identifier, which `parsedType`
rules out. -/
theorem validate_unrecognized (fn : FuncDecl)
    (hparse : ∀ p ∈ fn.params, parsedType p = true)
    (h : fn.params.length < 2
      ∨ (fn.params.head? ≠ some (.selector (.ident "polycode") "ServiceContext")
         ∧ fn.params.head? ≠ some (.selector (.ident "polycode") "WorkflowContext"))) :
    ∃ e, validateFunctionParams fn = some (Except.error e)
      ∧ (e = ParseErr.notEnoughParams fn.name
         ∨ e = ParseErr.badFirstParam fn.name) := by
  rcases hp : fn.params with _ | ⟨p0, _ | ⟨p1, ps⟩⟩
  · refine ⟨.notEnoughParams fn.name, ?_, Or.inl rfl⟩
    unfold validateFunctionParams
    rw [hp]
  · refine ⟨.notEnoughParams fn.name, ?_, Or.inl rfl⟩
    unfold validateFunctionParams
    rw [hp]
  · rcases h with hl | ⟨hs, hw⟩
    · rw [hp] at hl
      simp at hl
      omega
    · rw [hp] at hs hw
      simp only [List.head?_cons, ne_eq, Option.some.injEq] at hs hw
      have hp0 : parsedType p0 = true :=
        hparse p0 (by rw [hp]; exact List.mem_cons_self _ _)
      unfold validateFunctionParams
      rw [hp]
      cases p0 with
      | selector sx sel =>
        cases sx with
        | ident x =>
          by_cases hx : x = "polycode"
          · subst hx
            by_cases hsel : sel = "ServiceContext"
            · subst hsel
              exact absurd rfl hs
            · by_cases hsel2 : sel = "WorkflowContext"
              · subst hsel2
                exact absurd rfl hw
              · refine ⟨.badFirstParam fn.name, ?_, Or.inr rfl⟩
                simp [hsel, hsel2]
          · refine ⟨.badFirstParam fn.name, ?_, Or.inr rfl⟩
            simp [hx]
        | selector a b => simp [parsedType] at hp0
        | star p x => simp [parsedType] at hp0
        | sliceArray p e => simp [parsedType] at hp0
        | array p l e => simp [parsedType] at hp0
        | other r => simp [parsedType] at hp0
      | ident n => exact ⟨.badFirstParam fn.name, rfl, Or.inr rfl⟩
      | star p x => exact ⟨.badFirstParam fn.name, rfl, Or.inr rfl⟩
      | sliceArray p e => exact ⟨.badFirstParam fn.name, rfl, Or.inr rfl⟩
      | array p l e => exact ⟨.badFirstParam fn.name, rfl, Or.inr rfl⟩
      | other r => exact ⟨.badFirstParam fn.name, rfl, Or.inr rfl⟩

/-- A validation error propagates out of the declaration loop as the
service's parse failure (not a skip, not a panic). -/
theorem processFunc_error_of_validate {fn : FuncDecl} {e : ParseErr}
    (hrecv : fn.hasRecv = false) (hlow : startsLower fn.name = false)
    (hval : validateFunctionParams fn = some (.error e)) (sd : SchemaMap) :
    processFunc sd fn = some (.error e) := by
  unfold processFunc
  rw [if_neg (by simp [hrecv]), if_neg (by simp [hlow]), hval]

/-- C5: for every exported free function the convention parser can
actually encounter (the parameter types are results of an error-free
Go parse, so a selector's qualifier is always a plain identifier —
`a.b.C` never reaches `validateFunctionParams`, being a syntax error
that aborts the file's parse first), fewer than two parameters or any
first-parameter shape other than the qualified `polycode`
`ServiceContext`/`WorkflowContext` reference makes parsing fail with
an error naming the offending function, with no crash and no silent
continuation. -/
theorem C5_invalid_first_param_error (fn : FuncDecl) (sd : SchemaMap)
    (hrecv : fn.hasRecv = false) (hlow : startsLower fn.name = false)
    (hparse : ∀ p ∈ fn.params, parsedType p = true)
    (h : fn.params.length < 2
      ∨ (fn.params.head? ≠ some (.selector (.ident "polycode") "ServiceContext")
         ∧ fn.params.head? ≠ some (.selector (.ident "polycode") "WorkflowContext"))) :
    ∃ e, validateFunctionParams fn = some (Except.error e)
      ∧ processFunc sd fn = some (Except.error e)
      ∧ (e = ParseErr.notEnoughParams fn.name
         ∨ e = ParseErr.badFirstParam fn.name) := by
  obtain ⟨e, hval, hshape⟩ := validate_unrecognized fn hparse h
  exact ⟨e, hval, processFunc_error_of_validate hrecv hlow hval sd, hshape⟩

/-- C5 (witness): a pointer first parameter and a one-parameter
function, both parser-deliverable, each fail with the named error. -/
theorem C5_witness :
    (∃ e, validateFunctionParams pointerCtxFunc = some (Except.error e)
       ∧ processFunc [] pointerCtxFunc = some (Except.error e)
       ∧ (e = ParseErr.notEnoughParams "Bar" ∨ e = ParseErr.badFirstParam "Bar"))
    ∧ (∃ e, validateFunctionParams tooFewParamsFunc = some (Except.error e)
       ∧ processFunc [] tooFewParamsFunc = some (Except.error e)
       ∧ (e = ParseErr.notEnoughParams "Baz" ∨ e = ParseErr.badFirstParam "Baz")) :=
  ⟨C5_invalid_first_param_error pointerCtxFunc [] rfl (by decide) (by decide)
     (Or.inr (by decide)),
   C5_invalid_first_param_error tooFewParamsFunc [] rfl (by decide) (by decide)
     (Or.inl (by decide))⟩

/-! ### Claim C7 -/

/-- C7: when the convention parser recognizes zero methods in a
service directory, `generateService` writes no adapter artifact and
no definition artifact and returns without error. -/
theorem C7_zero_methods_noop (moduleName serviceName : String)
    (files : List SourceFile) (structDefs : SchemaMap) (prod : Bool)
    (imports : List String)
    (h : parseDir structDefs files = some (.ok ([], imports))) :
    generateService moduleName serviceName files structDefs prod = ([], .ok) := by
  unfold generateService
  rw [h]
  rfl

/-- C7 (witness): a service directory holding one Go file with no
declarations at all. -/
theorem C7_witness :
    generateService "m" "svc" [emptyServiceFile] [] true = ([], .ok) :=
  C7_zero_methods_noop "m" "svc" [emptyServiceFile] [] true [] rfl

/-! ### Claim C8 -/

theorem unique_foldl (l : List String) :
    ∀ seen acc : List String,
      (l.foldl (fun acc s => if s ∈ acc.1 then acc else (s :: acc.1, acc.2 ++ [s]))
          ((seen, acc) : List String × List String)).2
        = acc ++ keepFirst (l.filter (fun x => ¬ x ∈ seen)) := by
  induction l with
  | nil =>
    intro seen acc
    simp [keepFirst]
  | cons s rest ih =>
    intro seen acc
    by_cases hs : s ∈ seen
    · simp only [List.foldl_cons, List.filter_cons]
      rw [if_pos hs]
      have hd : (decide ¬(s ∈ seen)) = false := by simp [hs]
      simp only [hd, Bool.false_eq_true, if_false]
      exact ih seen acc
    · simp only [List.foldl_cons, List.filter_cons]
      rw [if_neg hs]
      have hd : (decide ¬(s ∈ seen)) = true := by simp [hs]
      simp only [hd, if_true]
      rw [ih (s :: seen) (acc ++ [s]), keepFirst]
      have hfil : rest.filter (fun x => ¬ x ∈ s :: seen)
          = (rest.filter (fun x => ¬ x ∈ seen)).filter (fun b => b ≠ s) := by
        rw [List.filter_filter]
        apply List.filter_congr
        intro a _
        by_cases h1 : a = s <;> by_cases h2 : a ∈ seen <;> simp [h1, h2]
      rw [hfil]
      simp

theorem unique_eq_keepFirst (l : List String) : unique l = keepFirst l := by
  have h := unique_foldl l [] []
  have hfil : l.filter (fun x => ¬ x ∈ ([] : List String)) = l := by
    rw [List.filter_eq_self]
    intro a _
    simp
  rw [hfil] at h
  simpa [unique] using h

theorem mem_keepFirst : ∀ (l : List String) (x : String),
    x ∈ keepFirst l ↔ x ∈ l := by
  intro l
  induction l using keepFirst.induct with
  | case1 => simp [keepFirst]
  | case2 a l ih =>
    intro x
    rw [keepFirst]
    by_cases hxa : x = a
    · simp [hxa]
    · simp only [List.mem_cons, hxa, false_or]
      rw [ih x, List.mem_filter]
      simp [hxa]

theorem count_keepFirst : ∀ (l : List String) (x : String),
    x ∈ l → (keepFirst l).count x = 1 := by
  intro l
  induction l using keepFirst.induct with
  | case1 =>
    intro x hx
    simp at hx
  | case2 a l ih =>
    intro x hx
    rw [keepFirst]
    by_cases hxa : x = a
    · subst hxa
      have h0 : (keepFirst (l.filter (fun b => b ≠ x))).count x = 0 := by
        rw [List.count_eq_zero, mem_keepFirst]
        simp
      rw [List.count_cons, h0]
      simp
    · rw [List.count_cons]
      have hne : (a == x) = false := by
        simp [Ne.symm hxa]
      rw [hne]
      have hx' : x ∈ l.filter (fun b => b ≠ a) := by
        rw [List.mem_filter]
        rcases List.mem_cons.mp hx with h | h
        · exact absurd h hxa
        · exact ⟨h, by simp [hxa]⟩
      simpa using ih x hx' 

/-- C8: the deduplicated import list keeps each distinct path exactly
once, in order of that path's first appearance (it equals the
positional first-occurrence filter of the collected sequence). -/
theorem C8_unique_first_occurrence :
    (∀ l : List String, unique l = keepFirst l)
      ∧ (∀ (l : List String) (x : String), x ∈ l → (unique l).count x = 1)
      ∧ (∀ (l : List String) (x : String), x ∉ l → (unique l).count x = 0) := by
  refine ⟨unique_eq_keepFirst, ?_, ?_⟩
  · intro l x hx
    rw [unique_eq_keepFirst]
    exact count_keepFirst l x hx
  · intro l x hx
    rw [unique_eq_keepFirst, List.count_eq_zero, mem_keepFirst]
    exact hx

/-- C8 (witness): a path appearing in three files and another in one. -/
theorem C8_witness :
    unique ["pkgA", "pkgB", "pkgA", "pkgA"]
        = keepFirst ["pkgA", "pkgB", "pkgA", "pkgA"]
      ∧ (unique ["pkgA", "pkgB", "pkgA", "pkgA"]).count "pkgA" = 1
      ∧ (unique ["pkgA", "pkgB", "pkgA", "pkgA"]).count "pkgC" = 0 :=
  ⟨C8_unique_first_occurrence.1 _,
   C8_unique_first_occurrence.2.1 _ "pkgA" (by decide),
   C8_unique_first_occurrence.2.2 _ "pkgC" (by decide)⟩

/-! ### Inversion and introduction lemmas for `processFunc` -/

/-- Inversion: a retained method record is exactly the one built in
the retention branch of `parseDir`'s declaration loop. -/
theorem processFunc_retained {sd : SchemaMap} {fn : FuncDecl} {m : MethodInfo}
    (h : processFunc sd fn = some (.ok (some m))) :
    ∃ (ctx : CtxKind) (isInPtr : Bool) (inTy : String)
      (isOutPtr : Bool) (outTy : String),
      validateFunctionParams fn = some (.ok ctx)
        ∧ inTy ≠ "" ∧ outTy ≠ ""
        ∧ m = { originalName := fn.name, name := goToLower fn.name,
                inputType := inTy, isInputPointer := isInPtr,
                inputSchema := mapLookup sd inTy,
                outputType := outTy, isOutputPointer := isOutPtr,
                outputSchema := mapLookup sd outTy,
                isWorkflow := ctx == CtxKind.workflow,
                isService := ctx == CtxKind.service } := by
  unfold processFunc at h
  split at h
  · exact absurd h (by simp)
  split at h
  · exact absurd h (by simp)
  split at h
  · exact absurd h (by simp)
  · exact absurd h (by simp)
  rename_i ctx hval
  split at h
  case _ p0 p1 ps hps =>
    split at h
    · exact absurd h (by simp)
    rename_i isInPtr inTy hres1
    split at h
    · exact absurd h (by simp)
    · exact absurd h (by simp)
    rename_i r0 rs hrs
    split at h
    · exact absurd h (by simp)
    rename_i isOutPtr outTy hres0
    split at h
    case _ hne =>
      simp only [Option.some.injEq, Except.ok.injEq] at h
      exact ⟨ctx, isInPtr, inTy, isOutPtr, outTy, hval, hne.1, hne.2, h.symm⟩
    case _ => exact absurd h (by simp)
  case _ => exact absurd h (by simp)

/-- Introduction: the retention branch fires whenever the function is
an exported free function with valid parameters whose second
parameter and first result resolve to non-empty type names. -/
theorem processFunc_eq_of {sd : SchemaMap} {fn : FuncDecl} {ctx : CtxKind}
    {isInPtr : Bool} {inTy : String} {isOutPtr : Bool} {outTy : String}
    {p0 p1 : GoExpr} {ps : List GoExpr} {r0 : GoExpr} {rs : List GoExpr}
    (hrecv : fn.hasRecv = false) (hlow : startsLower fn.name = false)
    (hval : validateFunctionParams fn = some (.ok ctx))
    (hps : fn.params = p0 :: p1 :: ps)
    (hres1 : resolveTypeRef p1 = some (isInPtr, inTy))
    (hrs : fn.results = some (r0 :: rs))
    (hres0 : resolveTypeRef r0 = some (isOutPtr, outTy))
    (hin : inTy ≠ "") (hout : outTy ≠ "") :
    processFunc sd fn = some (.ok (some
      { originalName := fn.name, name := goToLower fn.name,
        inputType := inTy, isInputPointer := isInPtr,
        inputSchema := mapLookup sd inTy,
        outputType := outTy, isOutputPointer := isOutPtr,
        outputSchema := mapLookup sd outTy,
        isWorkflow := ctx == CtxKind.workflow,
        isService := ctx == CtxKind.service })) := by
  unfold processFunc
  rw [if_neg (by simp [hrecv]), if_neg (by simp [hlow]), hval, hps]
  simp only []
  rw [hres1]
  simp only []
  rw [hrs]
  simp only []
  rw [hres0]
  simp only []
  rw [if_pos ⟨hin, hout⟩]

/-- Every method in the output of the declaration loop satisfies any
property enjoyed by all retained records and all records already
accumulated. -/
theorem processFuncs_prop {sd : SchemaMap} (P : MethodInfo → Prop)
    (hP : ∀ fn m, processFunc sd fn = some (.ok (some m)) → P m) :
    ∀ (fns : List FuncDecl) (acc ms : List MethodInfo),
      (∀ m ∈ acc, P m) → processFuncs sd fns acc = some (.ok ms) →
      ∀ m ∈ ms, P m := by
  intro fns
  induction fns with
  | nil =>
    intro acc ms hacc h m hm
    unfold processFuncs at h
    simp only [Option.some.injEq, Except.ok.injEq] at h
    subst h
    exact hacc m hm
  | cons fn rest ih =>
    intro acc ms hacc h m hm
    unfold processFuncs at h
    split at h
    · exact absurd h (by simp)
    · exact absurd h (by simp)
    · exact ih acc ms hacc h m hm
    · rename_i m0 hm0
      refine ih (acc ++ [m0]) ms ?_ h m hm
      intro x hx
      rcases List.mem_append.mp hx with hx1 | hx2
      · exact hacc x hx1
      · rw [List.mem_singleton] at hx2
        subst hx2
        exact hP fn x hm0

/-- The walked-files analogue of `processFuncs_prop`. -/
theorem parseDirAux_prop {sd : SchemaMap} (P : MethodInfo → Prop)
    (hP : ∀ fn m, processFunc sd fn = some (.ok (some m)) → P m) :
    ∀ (files : List SourceFile) (acc : List MethodInfo) (imps : List String)
      (ms : List MethodInfo) (im : List String),
      (∀ m ∈ acc, P m) → parseDirAux sd files acc imps = some (.ok (ms, im)) →
      ∀ m ∈ ms, P m := by
  intro files
  induction files with
  | nil =>
    intro acc imps ms im hacc h m hm
    unfold parseDirAux at h
    simp only [Option.some.injEq, Except.ok.injEq, Prod.mk.injEq] at h
    obtain ⟨h1, _⟩ := h
    subst h1
    exact hacc m hm
  | cons f rest ih =>
    intro acc imps ms im hacc h m hm
    unfold parseDirAux at h
    split at h
    · split at h
      · exact absurd h (by simp)
      · rename_i ast hast
        split at h
        · exact absurd h (by simp)
        · exact absurd h (by simp)
        · rename_i methods' hpf
          exact ih methods' (imps ++ ast.imports) ms im
            (processFuncs_prop P hP ast.funcs acc methods' hacc hpf) h m hm
    · exact ih acc imps ms im hacc h m hm

/-- Every method returned by `parseDir` satisfies any property of all
retained records. -/
theorem parseDir_prop {sd : SchemaMap} {files : List SourceFile}
    {ms : List MethodInfo} {im : List String} (P : MethodInfo → Prop)
    (hP : ∀ fn m, processFunc sd fn = some (.ok (some m)) → P m)
    (h : parseDir sd files = some (.ok (ms, im))) :
    ∀ m ∈ ms, P m := by
  unfold parseDir at h
  split at h
  · exact absurd h (by simp)
  · exact absurd h (by simp)
  · rename_i methods imports haux
    simp only [Option.some.injEq, Except.ok.injEq, Prod.mk.injEq] at h
    obtain ⟨h1, _⟩ := h
    subst h1
    exact parseDirAux_prop P hP files [] [] methods imports (by simp) haux

/-! ### Claim C1 -/

/-- C1: for every retained method record, the attached input (resp.
output) schema is exactly the `RecordSchema` entry of the resolved
input (resp. output) type name when such an entry exists, and the
empty schema when it does not — with no error in either case. -/
theorem C1_schema_attachment :
    ∀ (structDefs : SchemaMap) (files : List SourceFile)
      (methods : List MethodInfo) (imports : List String),
      parseDir structDefs files = some (.ok (methods, imports)) →
      ∀ m ∈ methods,
        ((∀ entry, mapFind structDefs m.inputType = some entry →
            m.inputSchema = entry)
          ∧ (mapFind structDefs m.inputType = none → m.inputSchema = []))
        ∧ ((∀ entry, mapFind structDefs m.outputType = some entry →
            m.outputSchema = entry)
          ∧ (mapFind structDefs m.outputType = none → m.outputSchema = [])) := by
  intro sd files methods imports h
  have key : ∀ m ∈ methods,
      m.inputSchema = mapLookup sd m.inputType
        ∧ m.outputSchema = mapLookup sd m.outputType := by
    refine parseDir_prop _ ?_ h
    intro fn m hm
    obtain ⟨ctx, isInPtr, inTy, isOutPtr, outTy, _, _, _, hrec⟩ :=
      processFunc_retained hm
    subst hrec
    exact ⟨rfl, rfl⟩
  intro m hm
  obtain ⟨hin, hout⟩ := key m hm
  refine ⟨⟨?_, ?_⟩, ?_, ?_⟩
  · intro entry he
    rw [hin]
    unfold mapLookup
    rw [he]
    rfl
  · intro he
    rw [hin]
    unfold mapLookup
    rw [he]
    rfl
  · intro entry he
    rw [hout]
    unfold mapLookup
    rw [he]
    rfl
  · intro he
    rw [hout]
    unfold mapLookup
    rw [he]
    rfl

/-- C1 (witness): against a schema holding an entry for `pkg.Req` and
none for `pkg.Resp`, the retained record for `demoFunc` carries that
entry as input schema and the empty output schema. -/
theorem C1_witness :
    demoMethod.inputSchema = [⟨"A", "int"⟩] ∧ demoMethod.outputSchema = [] := by
  have h := C1_schema_attachment demoSchema [demoFile] [demoMethod] [] rfl
    demoMethod (List.mem_singleton.mpr rfl)
  exact ⟨h.1.1 [⟨"A", "int"⟩] rfl, h.2.2 rfl⟩

/-! ### Claim C6 -/

/-- C6: a convention function with a valid context first parameter,
pointer second parameter `*pkg.Req` and bare qualified first return
`pkg.Resp` yields a record with `originalName` the declared name,
`normalizedName` its lower-cased form, `inputTypeName = "pkg.Req"`,
`inputIsPointer = true`, `outputTypeName = "pkg.Resp"`,
`outputIsPointer = false`; and a method is retained only if both
resolved type names are non-empty. -/
theorem C6_method_record :
    (∀ (sd : SchemaMap) (fname pkg req qkg resp : String) (pos : Nat)
       (ps rs : List GoExpr),
       startsLower fname = false →
       ∀ ctxSel, (ctxSel = "ServiceContext" ∨ ctxSel = "WorkflowContext") →
       ∃ m, processFunc sd
             ⟨fname, false,
              .selector (.ident "polycode") ctxSel
                :: .star pos (.selector (.ident pkg) req) :: ps,
              some (.selector (.ident qkg) resp :: rs)⟩
           = some (.ok (some m))
         ∧ m.originalName = fname ∧ m.name = goToLower fname
         ∧ m.inputType = pkg ++ "." ++ req ∧ m.isInputPointer = true
         ∧ m.outputType = qkg ++ "." ++ resp ∧ m.isOutputPointer = false)
    ∧ (∀ (sd : SchemaMap) (fn : FuncDecl) (m : MethodInfo),
        processFunc sd fn = some (.ok (some m)) →
        m.inputType ≠ "" ∧ m.outputType ≠ "") := by
  constructor
  · intro sd fname pkg req qkg resp pos ps rs hlow ctxSel hctx
    rcases hctx with rfl | rfl
    · exact ⟨_, processFunc_eq_of rfl hlow rfl rfl rfl rfl rfl
        (dot_ne_empty pkg req) (dot_ne_empty qkg resp),
        rfl, rfl, rfl, rfl, rfl, rfl⟩
    · exact ⟨_, processFunc_eq_of rfl hlow rfl rfl rfl rfl rfl
        (dot_ne_empty pkg req) (dot_ne_empty qkg resp),
        rfl, rfl, rfl, rfl, rfl, rfl⟩
  · intro sd fn m hm
    obtain ⟨ctx, isInPtr, inTy, isOutPtr, outTy, _, hin, hout, hrec⟩ :=
      processFunc_retained hm
    subst hrec
    exact ⟨hin, hout⟩

/-- C6 (witness): the spec's own example `DoThing`. -/
theorem C6_witness :
    ∃ m, processFunc demoSchema
          ⟨"DoThing", false,
           .selector (.ident "polycode") "ServiceContext"
             :: .star 5 (.selector (.ident "pkg") "Req") :: [],
           some [.selector (.ident "pkg") "Resp"]⟩
        = some (.ok (some m))
      ∧ m.originalName = "DoThing" ∧ m.name = goToLower "DoThing"
      ∧ m.inputType = "pkg" ++ "." ++ "Req" ∧ m.isInputPointer = true
      ∧ m.outputType = "pkg" ++ "." ++ "Resp" ∧ m.isOutputPointer = false :=
  C6_method_record.1 demoSchema "DoThing" "pkg" "Req" "pkg" "Resp" 5 [] []
    (by decide) "ServiceContext" (Or.inl rfl)

/-! ### Claim C9 -/

/-- C9: for every retained method record exactly one of
`isWorkflow`/`isService` is true, `isService` exactly when the
validated first-parameter capability was `ServiceContext` and
`isWorkflow` exactly when it was `WorkflowContext`. -/
theorem C9_exclusive_flags :
    (∀ (sd : SchemaMap) (files : List SourceFile)
       (methods : List MethodInfo) (imports : List String),
       parseDir sd files = some (.ok (methods, imports)) →
       ∀ m ∈ methods, m.isService = !m.isWorkflow)
    ∧ (∀ (sd : SchemaMap) (fn : FuncDecl) (m : MethodInfo),
        processFunc sd fn = some (.ok (some m)) →
        (validateFunctionParams fn = some (.ok CtxKind.service) →
            m.isService = true ∧ m.isWorkflow = false)
          ∧ (validateFunctionParams fn = some (.ok CtxKind.workflow) →
            m.isWorkflow = true ∧ m.isService = false)) := by
  constructor
  · intro sd files methods imports h
    refine parseDir_prop _ ?_ h
    intro fn m hm
    obtain ⟨ctx, _, _, _, _, _, _, _, hrec⟩ := processFunc_retained hm
    subst hrec
    cases ctx <;> rfl
  · intro sd fn m hm
    obtain ⟨ctx, _, _, _, _, hval, _, _, hrec⟩ := processFunc_retained hm
    subst hrec
    constructor
    · intro hs
      rw [hval] at hs
      simp only [Option.some.injEq, Except.ok.injEq] at hs
      subst hs
      exact ⟨rfl, rfl⟩
    · intro hw
      rw [hval] at hw
      simp only [Option.some.injEq, Except.ok.injEq] at hw
      subst hw
      exact ⟨rfl, rfl⟩

/-- C9 (witness): the flags of the retained demo record are exclusive. -/
theorem C9_witness :
    demoMethod.isService = !demoMethod.isWorkflow :=
  C9_exclusive_flags.1 demoSchema [demoFile] [demoMethod] [] rfl
    demoMethod (List.mem_singleton.mpr rfl)

/-! ### Schema-map lemmas for claim C3

The pipeline's output depends on the schema map only through lookups
at the dotted (`pkg.Name`) type names of retained methods, while
every key the extractor ever stores is a declared type name; entries
at dot-free keys therefore never influence the output. -/

theorem resolveTypeRef_shape {e : GoExpr} {b : Bool} {t : String}
    (h : resolveTypeRef e = some (b, t)) :
    t = "" ∨ ∃ n sel, t = n ++ "." ++ sel := by
  unfold resolveTypeRef at h
  split at h
  · split at h
    · split at h
      · simp only [Option.some.injEq, Prod.mk.injEq] at h
        exact Or.inr ⟨_, _, h.2.symm⟩
      · exact absurd h (by simp)
    · simp only [Option.some.injEq, Prod.mk.injEq] at h
      exact Or.inl h.2.symm
  · split at h
    · simp only [Option.some.injEq, Prod.mk.injEq] at h
      exact Or.inr ⟨_, _, h.2.symm⟩
    · exact absurd h (by simp)
  · simp only [Option.some.injEq, Prod.mk.injEq] at h
    exact Or.inl h.2.symm

theorem resolveTypeRef_dotted {e : GoExpr} {b : Bool} {t : String}
    (h : resolveTypeRef e = some (b, t)) (hne : t ≠ "") : '.' ∈ t.data := by
  rcases resolveTypeRef_shape h with h0 | ⟨n, sel, ht⟩
  · exact absurd h0 hne
  · rw [ht]
    exact dot_mem_data n sel

theorem mapFind_filter_ne {m : SchemaMap} {k kk : String} (hne : kk ≠ k) :
    mapFind (m.filter (fun p => p.1 ≠ k)) kk = mapFind m kk := by
  induction m with
  | nil => rfl
  | cons a m ih =>
    rw [List.filter_cons]
    by_cases h1 : a.1 = k
    · rw [if_neg (by simp [h1])]
      rw [ih]
      unfold mapFind
      rw [List.find?_cons_of_neg]
      simp [h1, Ne.symm hne]
    · rw [if_pos (by simp [h1])]
      by_cases h2 : a.1 = kk
      · unfold mapFind
        rw [List.find?_cons_of_pos _ (by simp [h2]),
          List.find?_cons_of_pos _ (by simp [h2])]
      · unfold mapFind at ih ⊢
        rw [List.find?_cons_of_neg _ (by simp [h2]),
          List.find?_cons_of_neg _ (by simp [h2])]
        exact ih

theorem mapLookup_insert_self (m : SchemaMap) (k : String) (v : List Field) :
    mapLookup (mapInsert m k v) k = v := by
  unfold mapLookup mapFind mapInsert
  rw [List.find?_cons_of_pos _ (by simp)]
  rfl

theorem mapLookup_insert_ne {k kk : String} (m : SchemaMap) (v : List Field)
    (h : kk ≠ k) : mapLookup (mapInsert m k v) kk = mapLookup m kk := by
  unfold mapLookup mapInsert mapFind
  rw [List.find?_cons_of_neg _ (by simp [Ne.symm h])]
  have := @mapFind_filter_ne m k kk h
  unfold mapFind at this
  rw [this]

theorem mapInsert_agree {m₁ m₂ : SchemaMap}
    (hAg : ∀ k, '.' ∈ k.data → mapLookup m₁ k = mapLookup m₂ k)
    (k : String) (v : List Field) :
    ∀ kk, '.' ∈ kk.data →
      mapLookup (mapInsert m₁ k v) kk = mapLookup (mapInsert m₂ k v) kk := by
  intro kk hdot
  by_cases h : kk = k
  · subst h
    rw [mapLookup_insert_self, mapLookup_insert_self]
  · rw [mapLookup_insert_ne m₁ v h, mapLookup_insert_ne m₂ v h]
    exact hAg kk hdot

theorem extractFile_agree :
    ∀ (tds : List TypeDecl) (m₁ m₂ : SchemaMap),
      (∀ k, '.' ∈ k.data → mapLookup m₁ k = mapLookup m₂ k) →
      ∀ k, '.' ∈ k.data →
        mapLookup (extractFile m₁ tds) k = mapLookup (extractFile m₂ tds) k := by
  intro tds
  induction tds with
  | nil => intro m₁ m₂ hAg; exact hAg
  | cons td rest ih =>
    intro m₁ m₂ hAg
    unfold extractFile
    rw [List.foldl_cons, List.foldl_cons]
    cases htd : td.structFields with
    | none =>
      simp only [htd]
      exact ih m₁ m₂ hAg
    | some fs =>
      simp only [htd]
      exact ih _ _ (mapInsert_agree hAg td.name (extractFields fs))

theorem extractStep_agree {m₁ m₂ : SchemaMap}
    (hAg : ∀ k, '.' ∈ k.data → mapLookup m₁ k = mapLookup m₂ k)
    (f : SourceFile) :
    ∀ k, '.' ∈ k.data →
      mapLookup (extractStep m₁ f) k = mapLookup (extractStep m₂ f) k := by
  unfold extractStep
  split
  · cases hast : f.ast with
    | none => simp only [hast]; exact hAg
    | some ast => simp only [hast]; exact extractFile_agree ast.types m₁ m₂ hAg
  · exact hAg

theorem extract_foldl_agree :
    ∀ (files : List SourceFile) (m₁ m₂ : SchemaMap),
      (∀ k, '.' ∈ k.data → mapLookup m₁ k = mapLookup m₂ k) →
      ∀ k, '.' ∈ k.data →
        mapLookup (files.foldl extractStep m₁) k
          = mapLookup (files.foldl extractStep m₂) k := by
  intro files
  induction files with
  | nil => intro m₁ m₂ hAg; exact hAg
  | cons f rest ih =>
    intro m₁ m₂ hAg
    rw [List.foldl_cons, List.foldl_cons]
    exact ih _ _ (extractStep_agree hAg f)

theorem mem_mapInsert {p : String × List Field} {m : SchemaMap} {k : String}
    {v : List Field} (h : p ∈ mapInsert m k v) : p = (k, v) ∨ p ∈ m := by
  unfold mapInsert at h
  rcases List.mem_cons.mp h with h1 | h2
  · exact Or.inl h1
  · exact Or.inr (List.mem_filter.mp h2).1

theorem extractFile_keys_dotfree :
    ∀ (tds : List TypeDecl) (m : SchemaMap),
      (∀ p ∈ m, '.' ∉ p.1.data) →
      (∀ td ∈ tds, '.' ∉ td.name.data) →
      ∀ p ∈ extractFile m tds, '.' ∉ p.1.data := by
  intro tds
  induction tds with
  | nil => intro m hm _; exact hm
  | cons td rest ih =>
    intro m hm htds
    unfold extractFile
    rw [List.foldl_cons]
    cases htd : td.structFields with
    | none =>
      simp only [htd]
      exact ih m hm (fun t ht => htds t (List.mem_cons_of_mem _ ht))
    | some fs =>
      simp only [htd]
      refine ih _ ?_ (fun t ht => htds t (List.mem_cons_of_mem _ ht))
      intro p hp
      rcases mem_mapInsert hp with h1 | h2
      · rw [h1]
        exact htds td (List.mem_cons_self _ _)
      · exact hm p h2

theorem extract_foldl_keys_dotfree :
    ∀ (files : List SourceFile) (m : SchemaMap),
      (∀ p ∈ m, '.' ∉ p.1.data) →
      (∀ f ∈ files, ∀ ast, f.ast = some ast →
        ∀ td ∈ ast.types, '.' ∉ td.name.data) →
      ∀ p ∈ files.foldl extractStep m, '.' ∉ p.1.data := by
  intro files
  induction files with
  | nil => intro m hm _; exact hm
  | cons f rest ih =>
    intro m hm hfs
    rw [List.foldl_cons]
    refine ih _ ?_ (fun g hg => hfs g (List.mem_cons_of_mem _ hg))
    unfold extractStep
    split
    · cases hast : f.ast with
      | none => simp only [hast]; exact hm
      | some ast =>
        simp only [hast]
        exact extractFile_keys_dotfree ast.types m hm
          (hfs f (List.mem_cons_self _ _) ast hast)
    · exact hm

theorem mapLookup_dotted_of_dotfree {m : SchemaMap}
    (hkeys : ∀ p ∈ m, '.' ∉ p.1.data) {k : String} (hdot : '.' ∈ k.data) :
    mapLookup m k = [] := by
  unfold mapLookup mapFind
  rw [List.find?_eq_none.mpr ?_]
  · rfl
  · intro p hp
    simp only [beq_iff_eq]
    intro hk
    exact hkeys p hp (hk ▸ hdot)

theorem extract_agree_of_dotfree_extra
    (extra walked : List SourceFile)
    (hdf : ∀ f ∈ extra, ∀ ast, f.ast = some ast →
      ∀ td ∈ ast.types, '.' ∉ td.name.data) :
    ∀ k, '.' ∈ k.data →
      mapLookup (extractStructs (extra ++ walked)) k
        = mapLookup (extractStructs walked) k := by
  unfold extractStructs
  rw [List.foldl_append]
  refine extract_foldl_agree walked _ [] ?_
  intro k hdot
  rw [mapLookup_dotted_of_dotfree
    (extract_foldl_keys_dotfree extra [] (by simp) hdf) hdot]
  rfl

/-! ### Congruence of the pipeline in the schema map (claim C3) -/

theorem processFunc_congr {m₁ m₂ : SchemaMap}
    (hAg : ∀ k, '.' ∈ k.data → mapLookup m₁ k = mapLookup m₂ k)
    (fn : FuncDecl) : processFunc m₁ fn = processFunc m₂ fn := by
  unfold processFunc
  split
  · rfl
  split
  · rfl
  split
  · rfl
  · rfl
  split
  case _ p0 p1 ps hps =>
    split
    · rfl
    rename_i isInPtr inTy hres1
    split
    · rfl
    · rfl
    rename_i r0 rs hrs
    split
    · rfl
    rename_i isOutPtr outTy hres0
    split
    case _ hne =>
      rw [hAg inTy (resolveTypeRef_dotted hres1 hne.1),
        hAg outTy (resolveTypeRef_dotted hres0 hne.2)]
    case _ => rfl
  case _ => rfl

theorem processFuncs_congr {m₁ m₂ : SchemaMap}
    (hAg : ∀ k, '.' ∈ k.data → mapLookup m₁ k = mapLookup m₂ k) :
    ∀ (fns : List FuncDecl) (acc : List MethodInfo),
      processFuncs m₁ fns acc = processFuncs m₂ fns acc := by
  intro fns
  induction fns with
  | nil => intro acc; rfl
  | cons fn rest ih =>
    intro acc
    unfold processFuncs
    rw [processFunc_congr hAg fn]
    split
    · rfl
    · rfl
    · exact ih acc
    · rename_i m0 _
      exact ih (acc ++ [m0])

theorem parseDirAux_congr {m₁ m₂ : SchemaMap}
    (hAg : ∀ k, '.' ∈ k.data → mapLookup m₁ k = mapLookup m₂ k) :
    ∀ (files : List SourceFile) (acc : List MethodInfo) (imps : List String),
      parseDirAux m₁ files acc imps = parseDirAux m₂ files acc imps := by
  intro files
  induction files with
  | nil => intro acc imps; rfl
  | cons f rest ih =>
    intro acc imps
    unfold parseDirAux
    split
    · cases hast : f.ast with
      | none => simp only [hast]
      | some ast =>
        simp only [hast]
        rw [processFuncs_congr hAg ast.funcs acc]
        split
        · rfl
        · rfl
        · rename_i methods' _
          exact ih methods' (imps ++ ast.imports)
    · exact ih acc imps

theorem parseDir_congr {m₁ m₂ : SchemaMap}
    (hAg : ∀ k, '.' ∈ k.data → mapLookup m₁ k = mapLookup m₂ k)
    (files : List SourceFile) : parseDir m₁ files = parseDir m₂ files := by
  unfold parseDir
  rw [parseDirAux_congr hAg files [] []]

theorem generateService_congr {m₁ m₂ : SchemaMap}
    (hAg : ∀ k, '.' ∈ k.data → mapLookup m₁ k = mapLookup m₂ k)
    (moduleName serviceName : String) (files : List SourceFile) (prod : Bool) :
    generateService moduleName serviceName files m₁ prod
      = generateService moduleName serviceName files m₂ prod := by
  unfold generateService
  rw [parseDir_congr hAg files]

theorem runServices_congr {m₁ m₂ : SchemaMap}
    (hAg : ∀ k, '.' ∈ k.data → mapLookup m₁ k = mapLookup m₂ k)
    (moduleName : String) (prod : Bool) :
    ∀ services : List (String × List SourceFile),
      runServices moduleName m₁ prod services
        = runServices moduleName m₂ prod services := by
  intro services
  induction services with
  | nil => rfl
  | cons s rest ih =>
    obtain ⟨name, files⟩ := s
    unfold runServices
    rw [generateService_congr hAg moduleName name files prod]
    split
    · rw [ih]
    · rfl

theorem adapterFileOf_dotfree (serviceName : String) :
    ∀ ast, (adapterFileOf serviceName).ast = some ast →
      ∀ td ∈ ast.types, '.' ∉ td.name.data := by
  intro ast h td htd
  unfold adapterFileOf adapterAst at h
  split at h
  case _ hid =>
    simp only [Option.some.injEq] at h
    subst h
    rw [List.mem_singleton] at htd
    subst htd
    -- the struct name passed the Go-identifier guard
    unfold isGoIdent at hid
    cases hd : (toPascalCase serviceName).data with
    | nil => rw [hd] at hid; exact absurd hid (by simp)
    | cons c rest =>
      rw [hd] at hid
      simp only [Bool.and_eq_true, List.all_eq_true] at hid
      intro hmem
      rcases List.mem_cons.mp hmem with h1 | h2
      · rw [← h1] at hid
        exact absurd hid.1 (by decide)
      · have := hid.2 '.' h2
        exact absurd this (by decide)
  case _ => exact Option.noConfusion h

/-! ### Claim C3 -/

/-- C3: determinism/idempotence of the pipeline — a second run over
the unchanged manifest, source tree and service directories, whose
project walk now additionally meets the artifacts written by the
first run (the adapter files in `.polycode`, which declare only the
empty service struct, and the definition documents, which are not Go
files), writes byte-identical adapter and definition artifacts and
ends the same way. -/
theorem C3_pipeline_idempotent (goModLines : List String)
    (walked : List SourceFile)
    (services : List (String × List SourceFile)) (prod : Bool) :
    GenerateServicesRun goModLines (secondRunWalk services walked) services prod
      = GenerateServicesRun goModLines walked services prod := by
  unfold GenerateServicesRun
  cases hmod : getModuleName goModLines with
  | none => rfl
  | some moduleName =>
    have hAg : ∀ k, '.' ∈ k.data →
        mapLookup (extractStructs (secondRunWalk services walked)) k
          = mapLookup (extractStructs walked) k := by
      unfold secondRunWalk
      apply extract_agree_of_dotfree_extra
      intro f hf ast hast td htd
      rcases List.mem_append.mp hf with h1 | h2
      · obtain ⟨s, _, hfs⟩ := List.mem_map.mp h1
        subst hfs
        exact adapterFileOf_dotfree s.1 ast hast td htd
      · obtain ⟨s, _, hfs⟩ := List.mem_map.mp h2
        subst hfs
        exact Option.noConfusion hast
    exact runServices_congr hAg moduleName prod services

end NextGen
